import Mathlib

/-!
Verification development for the dataset-conversion utilities of the
repository (generate_labels.py, merge_COCO_dataset.py, split_COCO_dataset.py).

Pixel coordinates and image dimensions are embedded as rationals (`ℚ`),
identifiers as naturals.  External library calls (pycocotools RLE decoding,
OpenCV contour extraction / simplification) are not repository code; an RLE
segmentation is therefore represented by the result that this external
pipeline produces for it: the flattened largest simplified contour, or `none`
when no contours are found.  Run-aborting Python exceptions (ValueError,
KeyError, IndexError) are modelled with `Except`.
-/

namespace GenLabels

/-- An entry of the `images` list of the dataset JSON: `id`, `file_name`,
`width`, `height` (generate_labels.py lines 93-99). -/
structure ImageRec where
  id : ℕ
  file_name : String
  width : ℚ
  height : ℚ
deriving DecidableEq

/-- The `segmentation` field of one COCO record.  The Python code dispatches
on its dynamic shape (generate_labels.py lines 147, 165, 170):
* a dict containing `counts` (RLE) — represented by the flattened largest
  simplified contour the external decode/findContours/approxPolyDP pipeline
  yields for it (`none` when `findContours` returns no contours, modelling
  the `return []` of `rle_to_yolo_polygon`);
* a non-empty list whose first element is a list (multi-polygon), `polys`;
* a non-empty list whose first element is a number (flat polygon), `flat`;
* the empty list, `emptyList` (Python raises IndexError at `poly_list[0]`);
* anything else, `other`. -/
inductive Seg where
  | rle (contourFlat : Option (List ℤ))
  | polys (p : List ℚ) (ps : List (List ℚ))
  | flat (c : ℚ) (cs : List ℚ)
  | emptyList
  | other
deriving DecidableEq

/-- One record of the `annotations` list.  The four required fields are
optional (the code checks their presence at line 122); `tag` stands for the
remaining payload of the JSON object, carried around unchanged. -/
structure Ann where
  id : Option ℕ
  image_id : Option ℕ
  category_id : Option ℕ
  segmentation : Option Seg
  tag : ℕ
deriving DecidableEq

/-- The whole dataset file: `images`, optional `categories` (category ids in
declaration order), `annotations`. -/
structure Dataset where
  images : List ImageRec
  categories : Option (List ℕ)
  annotations : List Ann
deriving DecidableEq

/-- Warnings printed by the converter; payloads are the ids appearing in the
message text. -/
inductive Warning where
  | missingFields
  | unknownImage (image_id : ℕ)
  | noContours (ann_id : ℕ)
  | unknownFormat (ann_id : ℕ)
  | noCategoryList
deriving DecidableEq

/-- Uncaught Python exceptions that abort the conversion run. -/
inductive CrashErr where
  | valueErrorUnpack
  | keyErrorCategory
  | indexError
deriving DecidableEq

/-- The normalisation loop of generate_labels.py (lines 50-53 and 177-181):
`for i in range(0, len(p), 2): out.append(p[i]/w); out.append(p[i+1]/h)`.
The access `p[i+1]` is out of range exactly when the list has odd length;
`none` models the IndexError raised there. -/
def normalizeFlat (img_width img_height : ℚ) : List ℚ → Option (List ℚ)
  | [] => some []
  | [_] => none
  | x :: y :: rest =>
      (normalizeFlat img_width img_height rest).map
        (fun r => x / img_width :: y / img_height :: r)

/-- Possible outcomes of `rle_to_yolo_polygon` as observed by its caller:
`empty` is the bare `return []` (no contours), `ok` the normal
`return normalized, flattened` pair, `indexError` an IndexError inside the
normalisation loop (unreachable for genuine contour data). -/
inductive RleResult where
  | empty
  | ok (normalized : List ℚ) (flattened : List ℤ)
  | indexError
deriving DecidableEq

/-- `rle_to_yolo_polygon` (generate_labels.py lines 10-55).  Decoding and
contour extraction are external library calls, summarised by `contourFlat`
(the flattened largest simplified contour, or `none` when no contours are
found, in which case the function returns the empty list). -/
def rle_to_yolo_polygon (contourFlat : Option (List ℤ)) (img_height img_width : ℚ) :
    RleResult :=
  match contourFlat with
  | none => .empty
  | some flattened =>
      match normalizeFlat img_width img_height (flattened.map (fun z => (z : ℚ))) with
      | none => .indexError
      | some normalized => .ok normalized flattened

/-- `max(poly_list, key=len)` over the non-empty list `p :: ps`
(generate_labels.py line 172).  Python's `max` keeps the current maximum and
replaces it only on a strictly greater key, so ties go to the first
occurrence. -/
def maxByLen (p : List ℚ) (ps : List (List ℚ)) : List ℚ :=
  ps.foldl (fun acc q => if acc.length < q.length then q else acc) p

/-- The mutable state of the conversion loop: `new_annotations` (line 116)
and `image_annotations` (line 117, an insertion-ordered dict modelled as an
association list with unique keys), plus the warnings printed so far. -/
structure ConvState where
  new_annotations : List Ann
  image_annotations : List (ℕ × List (ℕ × List ℚ))
  log : List Warning
deriving DecidableEq

/-- `if image_id not in image_annotations: image_annotations[image_id] = []`
(lines 139-140). -/
def initEntry (m : List (ℕ × List (ℕ × List ℚ))) (i : ℕ) :
    List (ℕ × List (ℕ × List ℚ)) :=
  if m.any (fun e => e.1 == i) then m else m ++ [(i, [])]

/-- `image_annotations[image_id].append(v)` (lines 157 and 184). -/
def pushEntry (m : List (ℕ × List (ℕ × List ℚ))) (i : ℕ) (v : ℕ × List ℚ) :
    List (ℕ × List (ℕ × List ℚ)) :=
  m.map (fun e => if e.1 == i then (e.1, e.2 ++ [v]) else e)

/-- Whether the per-image dict has an entry (possibly empty) for image `i`. -/
def hasEntry (m : List (ℕ × List (ℕ × List ℚ))) (i : ℕ) : Bool :=
  m.any (fun e => e.1 == i)

/-- The body of the per-record loop of `convert_json_to_yolo_labels`
(generate_labels.py lines 120-190), for one record `ann`:
required-field check (122), image lookup (131), per-image dict
initialisation (139-140), category lookup (143, KeyError when absent),
then dispatch on the segmentation shape. -/
def processAnn (category_mapping : ℕ → Option ℕ)
    (image_id_to_info : ℕ → Option ImageRec)
    (st : ConvState) (ann : Ann) : Except CrashErr ConvState :=
  match ann.id, ann.image_id, ann.category_id, ann.segmentation with
  | some ann_id, some image_id, some cat_id, some seg =>
    match image_id_to_info image_id with
    | none => .ok { st with log := st.log ++ [.unknownImage image_id] }
    | some img_info =>
      let st := { st with image_annotations := initEntry st.image_annotations image_id }
      match category_mapping cat_id with
      | none => .error .keyErrorCategory
      | some class_idx =>
        match seg with
        | .rle contourFlat =>
            match rle_to_yolo_polygon contourFlat img_info.height img_info.width with
            | .empty => .error .valueErrorUnpack
            | .indexError => .error .indexError
            | .ok yolo_polygon raw_polygon =>
                if yolo_polygon = [] then
                  .ok { st with log := st.log ++ [.noContours ann_id] }
                else
                  let raw_q : List ℚ := raw_polygon.map (fun z => (z : ℚ))
                  let new_ann : Ann := { ann with segmentation := some (.polys raw_q []) }
                  .ok { st with
                    image_annotations := pushEntry st.image_annotations image_id (class_idx, yolo_polygon),
                    new_annotations := st.new_annotations ++ [new_ann] }
        | .polys p ps =>
            let poly_points := maxByLen p ps
            match normalizeFlat img_info.width img_info.height poly_points with
            | none => .error .indexError
            | some yolo_polygon =>
                .ok { st with
                  image_annotations :=
                    pushEntry st.image_annotations image_id (class_idx, yolo_polygon),
                  new_annotations := st.new_annotations ++ [ann] }
        | .flat c cs =>
            match normalizeFlat img_info.width img_info.height (c :: cs) with
            | none => .error .indexError
            | some yolo_polygon =>
                .ok { st with
                  image_annotations :=
                    pushEntry st.image_annotations image_id (class_idx, yolo_polygon),
                  new_annotations := st.new_annotations ++ [ann] }
        | .emptyList => .error .indexError
        | .other => .ok { st with log := st.log ++ [.unknownFormat ann_id] }
  | _, _, _, _ => .ok { st with log := st.log ++ [.missingFields] }

/-- The dict `image_id_to_info` (lines 93-99): later duplicates overwrite
earlier ones, so lookup finds the last record with the given id. -/
def image_id_to_info (images : List ImageRec) (i : ℕ) : Option ImageRec :=
  images.reverse.find? (fun im => im.id == i)

/-- Index of the last occurrence of `x` in `l`, the lookup semantics of the
dict comprehension `{cat['id']: idx for idx, cat in enumerate(categories)}`
(line 104): a later pair overwrites an earlier one with the same key. -/
def lastIdxOf (l : List ℕ) (x : ℕ) : Option ℕ :=
  match l with
  | [] => none
  | a :: as =>
      match lastIdxOf as x with
      | some j => some (j + 1)
      | none => if a = x then some 0 else none

/-- Index of the first occurrence of `x` in `l`. -/
def idxOf? (l : List ℕ) (x : ℕ) : Option ℕ :=
  match l with
  | [] => none
  | a :: as => if a = x then some 0 else (idxOf? as x).map (· + 1)

/-- `sorted(unique_cats)` (lines 109-113): the distinct category ids
referenced by the records, in ascending order. -/
def unique_cats_sorted (anns : List Ann) : List ℕ :=
  ((anns.filterMap Ann.category_id).dedup).insertionSort (· ≤ ·)

/-- The category-id → contiguous-index mapping (lines 101-113), together
with the flag telling whether the no-category-list warning was printed. -/
def category_mapping_fn (d : Dataset) : (ℕ → Option ℕ) × Bool :=
  match d.categories with
  | some categories => (fun cid => lastIdxOf categories cid, false)
  | none => (fun cid => idxOf? (unique_cats_sorted d.annotations) cid, true)

/-- The observable output of one conversion run: the rewritten annotation
list (line 221), the label files written (line 194 writes one file per entry
of `image_annotations`, including entries whose line list is empty), and the
warnings printed. -/
structure ConvOutput where
  new_annotations : List Ann
  label_files : List (ℕ × List (ℕ × List ℚ))
  log : List Warning
deriving DecidableEq

/-- The state of the conversion loop before the first record: empty outputs,
and the no-category-list warning already printed when the mapping had to be
derived (line 107). -/
def convInit (d : Dataset) : ConvState :=
  { new_annotations := []
    image_annotations := []
    log := if (category_mapping_fn d).2 then [.noCategoryList] else [] }

/-- `convert_json_to_yolo_labels` (generate_labels.py lines 71-231), from
the in-memory dataset to the in-memory outputs.  Directory creation and
file I/O are outside the model. -/
def convert_json_to_yolo_labels (d : Dataset) : Except CrashErr ConvOutput :=
  (d.annotations.foldlM
      (processAnn (category_mapping_fn d).1 (image_id_to_info d.images)) (convInit d)).map
    (fun st =>
      { new_annotations := st.new_annotations
        label_files := st.image_annotations
        log := st.log })

theorem normalizeFlat_isSome (w h : ℚ) :
    ∀ ps : List ℚ, (normalizeFlat w h ps).isSome = true ↔ Even ps.length
  | [] => by simp [normalizeFlat]
  | [x] => by simp [normalizeFlat]
  | x :: y :: rest => by
      have ih := normalizeFlat_isSome w h rest
      have hpar : Even (rest.length + 1 + 1) ↔ Even rest.length := by
        rw [Nat.even_add_one, Nat.even_add_one, not_not]
      cases hr : normalizeFlat w h rest with
      | none =>
          rw [hr] at ih
          simp only [Option.isSome_none, Bool.false_eq_true, false_iff] at ih
          simp [normalizeFlat, hr, hpar, ih]
      | some q =>
          rw [hr] at ih
          simp only [Option.isSome_some, true_iff] at ih
          simp [normalizeFlat, hr, hpar, ih]

/-- The multiply-back direction of the spec's round-trip property: scale
each x coordinate by the image width and each y coordinate by the image
height.  This is the property's inverse map, not code of the repository. -/
def denormFlat (img_width img_height : ℚ) : List ℚ → List ℚ
  | x :: y :: rest => x * img_width :: y * img_height :: denormFlat img_width img_height rest
  | l => l

theorem normalizeFlat_even_spec (w h : ℚ) :
    ∀ ps : List ℚ, Even ps.length →
      ∃ q, normalizeFlat w h ps = some q ∧ q.length = ps.length ∧
        (∀ i, i % 2 = 0 → q.get? i = (ps.get? i).map (fun v => v / w)) ∧
        (∀ i, i % 2 = 1 → q.get? i = (ps.get? i).map (fun v => v / h))
  | [], _ => by
      refine ⟨[], rfl, rfl, ?_, ?_⟩ <;> intro i _ <;> simp
  | [x], hx => by
      rw [List.length_singleton, Nat.even_iff] at hx
      omega
  | x :: y :: rest, he => by
      have hrest : Even rest.length := by
        have := he
        simp only [List.length_cons] at this
        rwa [Nat.even_add_one, Nat.even_add_one, not_not] at this
      obtain ⟨q, hq, hlen, heven, hodd⟩ := normalizeFlat_even_spec w h rest hrest
      refine ⟨x / w :: y / h :: q, ?_, ?_, ?_, ?_⟩
      · simp [normalizeFlat, hq]
      · simp [hlen]
      · intro i hi
        match i, hi with
        | 0, _ => simp
        | 1, h1 => simp at h1
        | (i + 2), hi2 =>
            have : i % 2 = 0 := by omega
            simpa using heven i this
      · intro i hi
        match i, hi with
        | 0, h0 => simp at h0
        | 1, _ => simp
        | (i + 2), hi2 =>
            have : i % 2 = 1 := by omega
            simpa using hodd i this

theorem normalizeFlat_denorm (w h : ℚ) (hw : w ≠ 0) (hh : h ≠ 0) :
    ∀ ps : List ℚ, Even ps.length →
      (normalizeFlat w h ps).map (denormFlat w h) = some ps
  | [], _ => by simp [normalizeFlat, denormFlat]
  | [x], hx => by
      rw [List.length_singleton, Nat.even_iff] at hx
      omega
  | x :: y :: rest, he => by
      have hrest : Even rest.length := by
        have := he
        simp only [List.length_cons] at this
        rwa [Nat.even_add_one, Nat.even_add_one, not_not] at this
      have ih := normalizeFlat_denorm w h hw hh rest hrest
      cases hr : normalizeFlat w h rest with
      | none => rw [hr] at ih; simp at ih
      | some q =>
          rw [hr] at ih
          have ih2 : denormFlat w h q = rest := Option.some.inj (by simpa using ih)
          simp [normalizeFlat, hr, denormFlat, ih2, div_mul_cancel₀ x hw, div_mul_cancel₀ y hh]

theorem maxByLen_split (ps : List (List ℚ)) :
    ∀ p, ∃ l1 l2, p :: ps = l1 ++ maxByLen p ps :: l2 ∧
      (∀ q ∈ l1, q.length < (maxByLen p ps).length) ∧
      (∀ q ∈ l2, q.length ≤ (maxByLen p ps).length) := by
  induction ps with
  | nil =>
      intro p
      exact ⟨[], [], by simp [maxByLen], by simp, by simp⟩
  | cons q qs ih =>
      intro p
      have hunf : maxByLen p (q :: qs) = maxByLen (if p.length < q.length then q else p) qs := rfl
      obtain ⟨l1, l2, heq, hl1, hl2⟩ := ih (if p.length < q.length then q else p)
      by_cases hpq : p.length < q.length
      · rw [if_pos hpq] at heq hl1 hl2
        rw [hunf, if_pos hpq]
        have hplt : p.length < (maxByLen q qs).length := by
          cases l1 with
          | nil =>
              have hm : q = maxByLen q qs := by
                simpa using congrArg List.head? heq
              rw [← hm]
              exact hpq
          | cons a l1t =>
              have ha : q = a := by
                simpa using congrArg List.head? heq
              have := hl1 a (List.mem_cons_self a l1t)
              rw [← ha] at this
              exact lt_trans hpq this
        refine ⟨p :: l1, l2, ?_, ?_, hl2⟩
        · rw [List.cons_append, ← heq]
        · intro r hr
          rcases List.mem_cons.mp hr with rfl | hr
          · exact hplt
          · exact hl1 r hr
      · rw [if_neg hpq] at heq hl1 hl2
        rw [hunf, if_neg hpq]
        have hqp : q.length ≤ p.length := le_of_not_lt hpq
        cases l1 with
        | nil =>
            have hm : p = maxByLen p qs := by
              simpa using congrArg List.head? heq
            have hl2' : qs = l2 := by
              simpa using congrArg List.tail heq
            refine ⟨[], q :: qs, ?_, by simp, ?_⟩
            · simp [← hm]
            · intro r hr
              rcases List.mem_cons.mp hr with rfl | hr
              · rw [← hm]
                exact hqp
              · rw [← hm]
                have := hl2 r (hl2' ▸ hr)
                rw [← hm] at this
                exact this
        | cons a l1t =>
            have ha : p = a := by
              simpa using congrArg List.head? heq
            have htail : qs = l1t ++ maxByLen p qs :: l2 := by
              simpa using congrArg List.tail heq
            have hpl1 : p.length < (maxByLen p qs).length := by
              have := hl1 a (List.mem_cons_self a l1t)
              rw [← ha] at this
              exact this
            refine ⟨p :: q :: l1t, l2, ?_, ?_, hl2⟩
            · rw [List.cons_append, List.cons_append, ← htail]
            · intro r hr
              rcases List.mem_cons.mp hr with rfl | hr
              · exact hpl1
              · rcases List.mem_cons.mp hr with rfl | hr
                · exact lt_of_le_of_lt hqp hpl1
                · exact hl1 r (List.mem_cons_of_mem a hr)

/-- **C5**: polygon normalization divides every x coordinate by the image
width and every y coordinate by the image height, preserving pair order and
without clamping, and multiplying each normalized coordinate back by the
corresponding dimension reproduces the original pixel-space coordinates
exactly over the rationals, for every flat coordinate sequence of even
length and positive width/height. -/
theorem C5_normalization_round_trip (w h : ℚ) (ps : List ℚ)
    (hw : 0 < w) (hh : 0 < h) (he : Even ps.length) :
    ∃ q, normalizeFlat w h ps = some q ∧ q.length = ps.length ∧
      (∀ i, i % 2 = 0 → q.get? i = (ps.get? i).map (fun v => v / w)) ∧
      (∀ i, i % 2 = 1 → q.get? i = (ps.get? i).map (fun v => v / h)) ∧
      denormFlat w h q = ps := by
  obtain ⟨q, hq, hlen, hev, hod⟩ := normalizeFlat_even_spec w h ps he
  have hrt := normalizeFlat_denorm w h (ne_of_gt hw) (ne_of_gt hh) ps he
  rw [hq] at hrt
  exact ⟨q, hq, hlen, hev, hod, Option.some.inj (by simpa using hrt)⟩

theorem C5_normalization_round_trip_witness :
    ∃ q, normalizeFlat 4 2 [(8 : ℚ), 6, 2, 4] = some q ∧
      q.length = ([(8 : ℚ), 6, 2, 4] : List ℚ).length ∧
      (∀ i, i % 2 = 0 → q.get? i = (([(8 : ℚ), 6, 2, 4] : List ℚ).get? i).map (fun v => v / 4)) ∧
      (∀ i, i % 2 = 1 → q.get? i = (([(8 : ℚ), 6, 2, 4] : List ℚ).get? i).map (fun v => v / 2)) ∧
      denormFlat 4 2 q = [(8 : ℚ), 6, 2, 4] :=
  C5_normalization_round_trip 4 2 [8, 6, 2, 4] (by norm_num) (by norm_num) (by decide)

/-- **C9**: the converter's polygon normalization indexes the flat list at
positions i and i+1 for every even i below the length, with no parity check;
all accesses are in bounds iff the flat coordinate list has even length, so
an odd-length polygon annotation aborts the run with an IndexError instead
of being logged and skipped. -/
theorem C9_odd_length_uncaught (w h : ℚ) (ps : List ℚ) :
    ((normalizeFlat w h ps).isSome = true ↔ Even ps.length) ∧
    (∀ (category_mapping : ℕ → Option ℕ) (lookup : ℕ → Option ImageRec)
        (st : ConvState) (ann : Ann) (ann_id image_id cat_id : ℕ)
        (c : ℚ) (cs : List ℚ) (img_info : ImageRec) (class_idx : ℕ),
        ann.id = some ann_id → ann.image_id = some image_id →
        ann.category_id = some cat_id → ann.segmentation = some (.flat c cs) →
        lookup image_id = some img_info → category_mapping cat_id = some class_idx →
        ¬ Even (c :: cs).length →
        processAnn category_mapping lookup st ann = .error .indexError) := by
  refine ⟨normalizeFlat_isSome w h ps, ?_⟩
  intro cm lookup st ann ann_id image_id cat_id c cs img_info class_idx h1 h2 h3 h4 h5 h6 hodd
  have hnone : normalizeFlat img_info.width img_info.height (c :: cs) = none := by
    cases hh2 : normalizeFlat img_info.width img_info.height (c :: cs) with
    | none => rfl
    | some q =>
        have := (normalizeFlat_isSome img_info.width img_info.height (c :: cs)).mp
          (by rw [hh2]; rfl)
        exact absurd this hodd
  simp only [processAnn, h1, h2, h3, h4, h5, h6, hnone]

def imgW : ImageRec := { id := 1, file_name := "a.png", width := 10, height := 10 }

theorem C9_odd_length_uncaught_witness :
    processAnn (fun _ => some 0) (fun _ => some imgW)
      { new_annotations := [], image_annotations := [], log := [] }
      { id := some 1, image_id := some 1, category_id := some 7,
        segmentation := some (.flat 3 []), tag := 0 } = .error .indexError :=
  (C9_odd_length_uncaught 10 10 []).2 (fun _ => some 0) (fun _ => some imgW)
    { new_annotations := [], image_annotations := [], log := [] }
    { id := some 1, image_id := some 1, category_id := some 7,
      segmentation := some (.flat 3 []), tag := 0 }
    1 1 7 3 [] imgW 0 rfl rfl rfl rfl rfl rfl (by decide)

/-- **C4**: for a polygon annotation with several sub-polygons, the converter
selects exactly the sub-polygon with the maximum vertex count (ties broken
by first occurrence: everything strictly before the selected sub-polygon is
strictly shorter, everything after is no longer), normalizes exactly that
sub-polygon into the label output, and keeps the original pixel-space
annotation unchanged in the rewritten annotation list. -/
theorem C4_largest_subpolygon (category_mapping : ℕ → Option ℕ)
    (lookup : ℕ → Option ImageRec) (st : ConvState) (ann : Ann)
    (ann_id image_id cat_id : ℕ) (p : List ℚ) (ps : List (List ℚ))
    (img_info : ImageRec) (class_idx : ℕ)
    (h1 : ann.id = some ann_id) (h2 : ann.image_id = some image_id)
    (h3 : ann.category_id = some cat_id)
    (h4 : ann.segmentation = some (.polys p ps))
    (h5 : lookup image_id = some img_info)
    (h6 : category_mapping cat_id = some class_idx)
    (h7 : Even (maxByLen p ps).length) :
    ∃ nsel l1 l2,
      p :: ps = l1 ++ maxByLen p ps :: l2 ∧
      (∀ q ∈ l1, q.length < (maxByLen p ps).length) ∧
      (∀ q ∈ l2, q.length ≤ (maxByLen p ps).length) ∧
      normalizeFlat img_info.width img_info.height (maxByLen p ps) = some nsel ∧
      processAnn category_mapping lookup st ann =
        .ok { new_annotations := st.new_annotations ++ [ann],
              image_annotations := pushEntry (initEntry st.image_annotations image_id) image_id (class_idx, nsel),
              log := st.log } := by
  obtain ⟨l1, l2, hsplit, hlt, hle⟩ := maxByLen_split ps p
  have hsome : (normalizeFlat img_info.width img_info.height (maxByLen p ps)).isSome = true :=
    (normalizeFlat_isSome img_info.width img_info.height (maxByLen p ps)).mpr h7
  obtain ⟨nsel, hnsel⟩ := Option.isSome_iff_exists.mp hsome
  refine ⟨nsel, l1, l2, hsplit, hlt, hle, hnsel, ?_⟩
  simp only [processAnn, h1, h2, h3, h4, h5, h6, hnsel]

theorem C4_largest_subpolygon_witness :
    ∃ nsel l1 l2,
      [(1 : ℚ), 1] :: [[(0 : ℚ), 0, 4, 0, 4, 4], [(2 : ℚ), 2]] =
        l1 ++ maxByLen [(1 : ℚ), 1] [[(0 : ℚ), 0, 4, 0, 4, 4], [(2 : ℚ), 2]] :: l2 ∧
      (∀ q ∈ l1, q.length < (maxByLen [(1 : ℚ), 1] [[(0 : ℚ), 0, 4, 0, 4, 4], [(2 : ℚ), 2]]).length) ∧
      (∀ q ∈ l2, q.length ≤ (maxByLen [(1 : ℚ), 1] [[(0 : ℚ), 0, 4, 0, 4, 4], [(2 : ℚ), 2]]).length) ∧
      normalizeFlat imgW.width imgW.height (maxByLen [(1 : ℚ), 1] [[(0 : ℚ), 0, 4, 0, 4, 4], [(2 : ℚ), 2]]) = some nsel ∧
      processAnn (fun _ => some 0) (fun _ => some imgW)
        { new_annotations := [], image_annotations := [], log := [] }
        { id := some 1, image_id := some 1, category_id := some 7,
          segmentation := some (.polys [(1 : ℚ), 1] [[(0 : ℚ), 0, 4, 0, 4, 4], [(2 : ℚ), 2]]), tag := 0 } =
        .ok { new_annotations := [] ++
                [{ id := some 1, image_id := some 1, category_id := some 7,
                   segmentation := some (.polys [(1 : ℚ), 1] [[(0 : ℚ), 0, 4, 0, 4, 4], [(2 : ℚ), 2]]), tag := 0 }],
              image_annotations := pushEntry (initEntry [] 1) 1 (0, nsel),
              log := [] } :=
  C4_largest_subpolygon (fun _ => some 0) (fun _ => some imgW)
    { new_annotations := [], image_annotations := [], log := [] }
    { id := some 1, image_id := some 1, category_id := some 7,
      segmentation := some (.polys [(1 : ℚ), 1] [[(0 : ℚ), 0, 4, 0, 4, 4], [(2 : ℚ), 2]]), tag := 0 }
    1 1 7 [(1 : ℚ), 1] [[(0 : ℚ), 0, 4, 0, 4, 4], [(2 : ℚ), 2]] imgW 0
    rfl rfl rfl rfl rfl rfl (by decide)

/-- Dataset with a single RLE annotation whose decoded mask has no
foreground (the contour extractor finds no contours). -/
def rleEmptyDataset : Dataset :=
  { images := [imgW]
    categories := some [7]
    annotations := [{ id := some 1, image_id := some 1, category_id := some 7, segmentation := some (.rle none), tag := 0 }] }

/-- **C1** (refuting evaluation): on an annotation whose RLE mask decodes to
no foreground, `rle_to_yolo_polygon` returns the bare empty list and the
caller's tuple unpacking `yolo_polygon, raw_polygon = ...` (line 149) raises
ValueError before the `if not yolo_polygon` skip is ever reached: the run
aborts instead of logging a warning and continuing. -/
theorem C1_empty_rle_aborts_run :
    convert_json_to_yolo_labels rleEmptyDataset = .error .valueErrorUnpack := by rfl

/-- Dataset with a single annotation of odd-length flat polygon
segmentation. -/
def oddPolyDataset : Dataset :=
  { images := [imgW]
    categories := some [7]
    annotations := [{ id := some 1, image_id := some 1, category_id := some 7, segmentation := some (.flat 3 []), tag := 0 }] }

/-- **C3** (refuting evaluation): a single malformed annotation record (an
odd-length flat polygon) aborts the whole conversion run with an uncaught
IndexError; it is neither accepted nor skipped-with-a-log, so per-record
errors do interrupt the batch. -/
theorem C3_per_record_error_aborts_run :
    convert_json_to_yolo_labels oddPolyDataset = .error .indexError := by rfl

/-- **C3** (amended): every annotation record failing one of the explicitly
checked per-record conditions — missing required fields (line 122), unknown
image id (line 131), or unrecognized segmentation shape (line 188) — is
skipped with a log message and processing continues with an ok state; only
records malformed in ways the code does not check (odd-length polygons,
empty-contour RLE, unmapped category ids) abort the run. -/
theorem C3_amended_checked_errors_skipped (cm : ℕ → Option ℕ)
    (lookup : ℕ → Option ImageRec) (st : ConvState) (ann : Ann) :
    (ann.id = none ∨ ann.image_id = none ∨ ann.category_id = none ∨ ann.segmentation = none →
      processAnn cm lookup st ann = .ok { st with log := st.log ++ [.missingFields] }) ∧
    (∀ image_id, ann.image_id = some image_id →
      ann.id.isSome = true → ann.category_id.isSome = true → ann.segmentation.isSome = true →
      lookup image_id = none →
      processAnn cm lookup st ann = .ok { st with log := st.log ++ [.unknownImage image_id] }) ∧
    (∀ ann_id image_id cat_id img_info class_idx,
      ann.id = some ann_id → ann.image_id = some image_id →
      ann.category_id = some cat_id → ann.segmentation = some .other →
      lookup image_id = some img_info → cm cat_id = some class_idx →
      processAnn cm lookup st ann =
        .ok { st with image_annotations := initEntry st.image_annotations image_id,
                      log := st.log ++ [.unknownFormat ann_id] }) := by
  refine ⟨?_, ?_, ?_⟩
  · intro hmiss
    rcases hmiss with h | h | h | h
    · simp only [processAnn, h]
    · cases hid : ann.id with
      | none => simp only [processAnn, hid]
      | some v => simp only [processAnn, hid, h]
    · cases hid : ann.id with
      | none => simp only [processAnn, hid]
      | some v =>
        cases him : ann.image_id with
        | none => simp only [processAnn, hid, him]
        | some w => simp only [processAnn, hid, him, h]
    · cases hid : ann.id with
      | none => simp only [processAnn, hid]
      | some v =>
        cases him : ann.image_id with
        | none => simp only [processAnn, hid, him]
        | some w =>
          cases hct : ann.category_id with
          | none => simp only [processAnn, hid, him, hct]
          | some u => simp only [processAnn, hid, him, hct, h]
  · intro image_id him hid hct hsg hlk
    obtain ⟨v, hid2⟩ := Option.isSome_iff_exists.mp hid
    obtain ⟨u, hct2⟩ := Option.isSome_iff_exists.mp hct
    obtain ⟨sg, hsg2⟩ := Option.isSome_iff_exists.mp hsg
    simp only [processAnn, hid2, him, hct2, hsg2, hlk]
  · intro ann_id image_id cat_id img_info class_idx h1 h2 h3 h4 h5 h6
    simp only [processAnn, h1, h2, h3, h4, h5, h6]

/-- An annotation with every required field absent. -/
def annMissing : Ann :=
  { id := none, image_id := none, category_id := none, segmentation := none, tag := 0 }

/-- A well-formed annotation referencing image 5. -/
def annOn5 : Ann :=
  { id := some 1, image_id := some 5, category_id := some 7, segmentation := some (.flat 3 [4]), tag := 0 }

/-- An annotation whose segmentation has an unrecognized shape. -/
def annOther : Ann :=
  { id := some 2, image_id := some 1, category_id := some 7, segmentation := some .other, tag := 0 }

theorem C3_amended_checked_errors_skipped_witness :
    (processAnn (fun _ => some 0) (fun _ => some imgW)
        { new_annotations := [], image_annotations := [], log := [] } annMissing =
      .ok { new_annotations := [], image_annotations := [], log := [] ++ [.missingFields] }) ∧
    (processAnn (fun _ => some 0) (fun _ => none)
        { new_annotations := [], image_annotations := [], log := [] } annOn5 =
      .ok { new_annotations := [], image_annotations := [], log := [] ++ [.unknownImage 5] }) ∧
    (processAnn (fun _ => some 0) (fun _ => some imgW)
        { new_annotations := [], image_annotations := [], log := [] } annOther =
      .ok { new_annotations := [], image_annotations := initEntry [] 1,
            log := [] ++ [.unknownFormat 2] }) :=
  ⟨(C3_amended_checked_errors_skipped (fun _ => some 0) (fun _ => some imgW)
      { new_annotations := [], image_annotations := [], log := [] } annMissing).1 (Or.inl rfl),
   (C3_amended_checked_errors_skipped (fun _ => some 0) (fun _ => none)
      { new_annotations := [], image_annotations := [], log := [] } annOn5).2.1
      5 rfl rfl rfl rfl rfl,
   (C3_amended_checked_errors_skipped (fun _ => some 0) (fun _ => some imgW)
      { new_annotations := [], image_annotations := [], log := [] } annOther).2.2
      2 1 7 imgW 0 rfl rfl rfl rfl rfl rfl⟩

/-- Dataset with a single annotation whose segmentation has an unrecognized
shape (neither an RLE dict nor a list). -/
def unknownSegDataset : Dataset :=
  { images := [imgW]
    categories := some [7]
    annotations := [{ id := some 1, image_id := some 1, category_id := some 7, segmentation := some .other, tag := 0 }] }

/-- **C2** (counterexample): image 1 ends the run with zero accepted
annotations (its only annotation was dispatched and then skipped for its
unrecognized segmentation shape), yet the per-image label output contains an
entry for it — an empty label file is written, contradicting the claim that
no label file exists at all. -/
theorem C2_counterexample_empty_label_file :
    convert_json_to_yolo_labels unknownSegDataset =
      .ok { new_annotations := [], label_files := [(1, [])], log := [.unknownFormat 1] } := by rfl

/-- An annotation that gets past the required-fields check (line 122) and
the image-existence check (line 131) with owning image `i`: exactly then
does line 139-140 create the per-image entry for `i`. -/
def dispatched (lookup : ℕ → Option ImageRec) (i : ℕ) (ann : Ann) : Prop :=
  ann.image_id = some i ∧ ann.id.isSome = true ∧ ann.category_id.isSome = true ∧
    ann.segmentation.isSome = true ∧ (lookup i).isSome = true

theorem hasEntry_initEntry (m : List (ℕ × List (ℕ × List ℚ))) (j i : ℕ) :
    hasEntry (initEntry m j) i = true ↔ hasEntry m i = true ∨ i = j := by
  unfold hasEntry initEntry
  by_cases hj : m.any (fun e => e.1 == j) = true
  · rw [if_pos hj]
    constructor
    · exact Or.inl
    · rintro (h | rfl)
      · exact h
      · exact hj
  · rw [if_neg hj]
    simp only [List.any_append, List.any_cons, List.any_nil, Bool.or_false, Bool.or_eq_true,
      beq_iff_eq]
    constructor
    · rintro (h | rfl)
      · exact Or.inl h
      · exact Or.inr rfl
    · rintro (h | rfl)
      · exact Or.inl h
      · exact Or.inr rfl

theorem hasEntry_pushEntry (m : List (ℕ × List (ℕ × List ℚ))) (j i : ℕ) (v : ℕ × List ℚ) :
    hasEntry (pushEntry m j v) i = hasEntry m i := by
  induction m with
  | nil => rfl
  | cons e m ih =>
      show ((if e.1 == j then (e.1, e.2 ++ [v]) else e).1 == i || (pushEntry m j v).any (fun e => e.1 == i)) = (e.1 == i || m.any (fun e => e.1 == i))
      rw [show (pushEntry m j v).any (fun e => e.1 == i) = m.any (fun e => e.1 == i) from ih]
      congr 1
      split <;> rfl

theorem processAnn_hasEntry (cm : ℕ → Option ℕ) (lookup : ℕ → Option ImageRec)
    (st st' : ConvState) (ann : Ann)
    (hok : processAnn cm lookup st ann = .ok st') (i : ℕ) :
    hasEntry st'.image_annotations i = true ↔
      hasEntry st.image_annotations i = true ∨ dispatched lookup i ann := by
  cases hid : ann.id with
  | none =>
      simp only [processAnn, hid] at hok
      obtain rfl := Except.ok.inj hok
      simp [dispatched, hid]
  | some ann_id =>
  cases himg : ann.image_id with
  | none =>
      simp only [processAnn, hid, himg] at hok
      obtain rfl := Except.ok.inj hok
      simp [dispatched, himg]
  | some image_id =>
  cases hcat : ann.category_id with
  | none =>
      simp only [processAnn, hid, himg, hcat] at hok
      obtain rfl := Except.ok.inj hok
      simp [dispatched, hcat]
  | some cat_id =>
  cases hseg : ann.segmentation with
  | none =>
      simp only [processAnn, hid, himg, hcat, hseg] at hok
      obtain rfl := Except.ok.inj hok
      simp [dispatched, hseg]
  | some seg =>
  cases hlk : lookup image_id with
  | none =>
      simp only [processAnn, hid, himg, hcat, hseg, hlk] at hok
      obtain rfl := Except.ok.inj hok
      simp only [dispatched, himg]
      constructor
      · exact Or.inl
      · rintro (h | ⟨hsome, -, -, -, hl⟩)
        · exact h
        · obtain rfl : image_id = i := Option.some.inj hsome
          rw [hlk] at hl
          exact absurd hl (by simp)
  | some img_info =>
  have hdisp : dispatched lookup i ann ↔ i = image_id := by
    constructor
    · rintro ⟨hsome, -⟩
      rw [himg] at hsome
      exact (Option.some.inj hsome).symm
    · rintro rfl
      exact ⟨himg, by rw [hid]; rfl, by rw [hcat]; rfl, by rw [hseg]; rfl, by rw [hlk]; rfl⟩
  cases hcm : cm cat_id with
  | none =>
      simp only [processAnn, hid, himg, hcat, hseg, hlk, hcm] at hok
      exact absurd hok (by simp)
  | some class_idx =>
  cases seg with
  | rle contourFlat =>
      cases hrle : rle_to_yolo_polygon contourFlat img_info.height img_info.width with
      | empty =>
          simp only [processAnn, hid, himg, hcat, hseg, hlk, hcm, hrle] at hok
          exact absurd hok (by simp)
      | indexError =>
          simp only [processAnn, hid, himg, hcat, hseg, hlk, hcm, hrle] at hok
          exact absurd hok (by simp)
      | ok yolo raw =>
          simp only [processAnn, hid, himg, hcat, hseg, hlk, hcm, hrle] at hok
          by_cases hy : yolo = []
          · rw [if_pos hy] at hok
            obtain rfl := Except.ok.inj hok
            simpa [hdisp] using hasEntry_initEntry st.image_annotations image_id i
          · rw [if_neg hy] at hok
            obtain rfl := Except.ok.inj hok
            simp only [hdisp]
            rw [show hasEntry (pushEntry (initEntry st.image_annotations image_id) image_id (class_idx, yolo)) i = hasEntry (initEntry st.image_annotations image_id) i from hasEntry_pushEntry _ _ _ _]
            exact hasEntry_initEntry st.image_annotations image_id i
  | polys p ps =>
      cases hnf : normalizeFlat img_info.width img_info.height (maxByLen p ps) with
      | none =>
          simp only [processAnn, hid, himg, hcat, hseg, hlk, hcm, hnf] at hok
          exact absurd hok (by simp)
      | some yolo =>
          simp only [processAnn, hid, himg, hcat, hseg, hlk, hcm, hnf] at hok
          obtain rfl := Except.ok.inj hok
          simp only [hdisp]
          rw [show hasEntry (pushEntry (initEntry st.image_annotations image_id) image_id (class_idx, yolo)) i = hasEntry (initEntry st.image_annotations image_id) i from hasEntry_pushEntry _ _ _ _]
          exact hasEntry_initEntry st.image_annotations image_id i
  | flat c cs =>
      cases hnf : normalizeFlat img_info.width img_info.height (c :: cs) with
      | none =>
          simp only [processAnn, hid, himg, hcat, hseg, hlk, hcm, hnf] at hok
          exact absurd hok (by simp)
      | some yolo =>
          simp only [processAnn, hid, himg, hcat, hseg, hlk, hcm, hnf] at hok
          obtain rfl := Except.ok.inj hok
          simp only [hdisp]
          rw [show hasEntry (pushEntry (initEntry st.image_annotations image_id) image_id (class_idx, yolo)) i = hasEntry (initEntry st.image_annotations image_id) i from hasEntry_pushEntry _ _ _ _]
          exact hasEntry_initEntry st.image_annotations image_id i
  | emptyList =>
      simp only [processAnn, hid, himg, hcat, hseg, hlk, hcm] at hok
      exact absurd hok (by simp)
  | other =>
      simp only [processAnn, hid, himg, hcat, hseg, hlk, hcm] at hok
      obtain rfl := Except.ok.inj hok
      simpa [hdisp] using hasEntry_initEntry st.image_annotations image_id i

theorem processAll_hasEntry (cm : ℕ → Option ℕ) (lookup : ℕ → Option ImageRec) :
    ∀ (anns : List Ann) (st st' : ConvState),
      anns.foldlM (processAnn cm lookup) st = .ok st' → ∀ i,
      (hasEntry st'.image_annotations i = true ↔
        hasEntry st.image_annotations i = true ∨ ∃ ann ∈ anns, dispatched lookup i ann)
  | [], st, st', h, i => by
      obtain rfl : st = st' := Except.ok.inj h
      simp
  | a :: as, st, st', h, i => by
      rw [List.foldlM_cons] at h
      cases hp : processAnn cm lookup st a with
      | error e =>
          rw [hp] at h
          exact absurd h (fun hh => Except.noConfusion hh)
      | ok st1 =>
          rw [hp] at h
          replace h : as.foldlM (processAnn cm lookup) st1 = .ok st' := h
          have h1 := processAnn_hasEntry cm lookup st st1 a hp i
          have h2 := processAll_hasEntry cm lookup as st1 st' h i
          rw [h2, h1]
          constructor
          · rintro ((hs | hd) | ⟨ann, hmem, hd⟩)
            · exact Or.inl hs
            · exact Or.inr ⟨a, List.mem_cons_self a as, hd⟩
            · exact Or.inr ⟨ann, List.mem_cons_of_mem a hmem, hd⟩
          · rintro (hs | ⟨ann, hmem, hd⟩)
            · exact Or.inl (Or.inl hs)
            · rcases List.mem_cons.mp hmem with rfl | hmem
              · exact Or.inl (Or.inr hd)
              · exact Or.inr ⟨ann, hmem, hd⟩

/-- **C2** (amended): after a successful conversion the per-image label
output has an entry for image `i` iff some annotation that passed the
required-fields check and the image-existence check references `i`.  An
image whose annotations were all dispatched and then skipped at the
segmentation stage therefore still gets a (empty) label file, while an image
no annotation got that far for gets none. -/
theorem C2_amended_label_file_presence (d : Dataset) (out : ConvOutput)
    (hok : convert_json_to_yolo_labels d = .ok out) (i : ℕ) :
    hasEntry out.label_files i = true ↔
      ∃ ann ∈ d.annotations, dispatched (image_id_to_info d.images) i ann := by
  unfold convert_json_to_yolo_labels at hok
  cases hf : d.annotations.foldlM
      (processAnn (category_mapping_fn d).1 (image_id_to_info d.images)) (convInit d) with
  | error e =>
      rw [hf] at hok
      exact absurd hok (fun hh => Except.noConfusion hh)
  | ok st =>
      rw [hf] at hok
      obtain rfl := Except.ok.inj hok
      have hmain := processAll_hasEntry (category_mapping_fn d).1 (image_id_to_info d.images)
        d.annotations (convInit d) st hf i
      simpa [convInit, hasEntry] using hmain

/-- A second image that no annotation references. -/
def imgV : ImageRec := { id := 2, file_name := "b.png", width := 20, height := 20 }

/-- Input for the C2 witness: one accepted annotation on image 1, image 2
never referenced. -/
def presenceDataset : Dataset :=
  { images := [imgW, imgV]
    categories := some [7]
    annotations := [{ id := some 1, image_id := some 1, category_id := some 7, segmentation := some (.flat 0 [0, 5, 0, 5, 5]), tag := 0 }] }

/-- The output of the conversion of `presenceDataset`. -/
def presenceOut : ConvOutput :=
  { new_annotations := [{ id := some 1, image_id := some 1, category_id := some 7, segmentation := some (.flat 0 [0, 5, 0, 5, 5]), tag := 0 }]
    label_files := [(1, [(0, [0 / 10, 0 / 10, 5 / 10, 0 / 10, 5 / 10, 5 / 10])])]
    log := [] }

theorem C2_amended_label_file_presence_witness :
    convert_json_to_yolo_labels presenceDataset = .ok presenceOut ∧
      (hasEntry presenceOut.label_files 2 = true ↔
        ∃ ann ∈ presenceDataset.annotations,
          dispatched (image_id_to_info presenceDataset.images) 2 ann) :=
  ⟨by rfl, C2_amended_label_file_presence presenceDataset presenceOut (by rfl) 2⟩

theorem lastIdxOf_eq_none (x : ℕ) : ∀ l : List ℕ, x ∉ l → lastIdxOf l x = none
  | [], _ => rfl
  | a :: as, h => by
      have hx : x ∉ as := fun hh => h (List.mem_cons_of_mem a hh)
      have ha : a ≠ x := fun hh => h (hh ▸ List.mem_cons_self a as)
      simp [lastIdxOf, lastIdxOf_eq_none x as hx, ha]

theorem lastIdxOf_nodup : ∀ (l : List ℕ), l.Nodup → ∀ i (hi : i < l.length),
    lastIdxOf l (l.get ⟨i, hi⟩) = some i
  | [], _, i, hi => absurd hi (by simp)
  | a :: as, hnd, 0, _ => by
      have ha : a ∉ as := (List.nodup_cons.mp hnd).1
      simp [lastIdxOf, lastIdxOf_eq_none a as ha]
  | a :: as, hnd, i + 1, hi => by
      have hnd2 : as.Nodup := (List.nodup_cons.mp hnd).2
      have hi2 : i < as.length := by simpa using hi
      have hrec := lastIdxOf_nodup as hnd2 i hi2
      have hget : (a :: as).get ⟨i + 1, hi⟩ = as.get ⟨i, hi2⟩ := rfl
      rw [hget]
      simp only [lastIdxOf, hrec]

theorem idxOf?_not_mem (x : ℕ) : ∀ l : List ℕ, x ∉ l → idxOf? l x = none
  | [], _ => rfl
  | a :: as, h => by
      have ha : a ≠ x := fun hh => h (hh ▸ List.mem_cons_self a as)
      have hx : x ∉ as := fun hh => h (List.mem_cons_of_mem a hh)
      simp [idxOf?, ha, idxOf?_not_mem x as hx]

theorem idxOf?_sorted_lt (x : ℕ) : ∀ l : List ℕ, l.Sorted (· < ·) →
    ∀ j, (idxOf? l x = some j ↔ x ∈ l ∧ j = (l.filter (fun c => c < x)).length)
  | [], _, j => by simp [idxOf?]
  | a :: as, hs, j => by
      have hpw : ∀ b ∈ as, a < b := (List.sorted_cons.mp hs).1
      have hs2 : as.Sorted (· < ·) := (List.sorted_cons.mp hs).2
      by_cases hax : a = x
      · subst hax
        have h1 : as.filter (fun c => decide (c < a)) = [] := by
          rw [List.filter_eq_nil_iff]
          intro b hb
          simpa using not_lt_of_gt (hpw b hb)
        simp only [idxOf?, if_pos rfl, List.filter_cons, decide_eq_true_eq, lt_irrefl,
          ite_false, if_false, h1, List.length_nil]
        constructor
        · intro hj
          exact ⟨List.mem_cons_self a as, (Option.some.inj hj).symm⟩
        · rintro ⟨-, rfl⟩
          rfl
      · by_cases hmem : x ∈ as
        · have hax2 : a < x := hpw x hmem
          have hsome : idxOf? as x = some (as.filter (fun c => c < x)).length :=
            (idxOf?_sorted_lt x as hs2 (as.filter (fun c => c < x)).length).mpr ⟨hmem, rfl⟩
          have hfc : (a :: as).filter (fun c => decide (c < x)) =
              a :: as.filter (fun c => decide (c < x)) := by
            rw [List.filter_cons]
            simp [hax2]
          simp only [idxOf?, if_neg hax, hsome, Option.map_some', hfc, List.length_cons]
          constructor
          · intro hj
            exact ⟨List.mem_cons_of_mem a hmem, (Option.some.inj hj).symm⟩
          · rintro ⟨-, rfl⟩
            rfl
        · have hnotin : x ∉ a :: as := by
            intro hh
            rcases List.mem_cons.mp hh with rfl | hh
            · exact hax rfl
            · exact hmem hh
          simp [idxOf?, if_neg hax, idxOf?_not_mem x as hmem, hnotin]

theorem unique_cats_sorted_strict (anns : List Ann) :
    (unique_cats_sorted anns).Sorted (· < ·) := by
  have h1 : (unique_cats_sorted anns).Sorted (· ≤ ·) :=
    List.sorted_insertionSort (· ≤ ·) ((anns.filterMap Ann.category_id).dedup)
  have hperm := List.perm_insertionSort (· ≤ ·) ((anns.filterMap Ann.category_id).dedup)
  have h2 : (unique_cats_sorted anns).Nodup :=
    hperm.nodup_iff.mpr (List.nodup_dedup _)
  exact h1.lt_of_le h2

/-- **C6**: with a declared category list the mapping sends each category id
to its position in that list; without one, the ids actually referenced by
annotations are assigned zero-based indices in ascending order (a referenced
id's index is the number of distinct referenced ids smaller than it) and the
no-category-list warning is emitted.  Being a function of the dataset alone,
the mapping is deterministic for a given input. -/
theorem C6_category_mapping (d : Dataset) :
    (∀ cats, d.categories = some cats → cats.Nodup →
      ∀ i (hi : i < cats.length), (category_mapping_fn d).1 (cats.get ⟨i, hi⟩) = some i) ∧
    (d.categories = none →
      (category_mapping_fn d).2 = true ∧
      ∀ cid j, ((category_mapping_fn d).1 cid = some j ↔
        (cid ∈ d.annotations.filterMap Ann.category_id ∧
          j = ((d.annotations.filterMap Ann.category_id).dedup.filter (fun c => c < cid)).length))) := by
  constructor
  · intro cats hcats hnd i hi
    simp only [category_mapping_fn, hcats]
    exact lastIdxOf_nodup cats hnd i hi
  · intro hnone
    simp only [category_mapping_fn, hnone]
    refine ⟨trivial, ?_⟩
    intro cid j
    have hiff := idxOf?_sorted_lt cid (unique_cats_sorted d.annotations)
      (unique_cats_sorted_strict d.annotations) j
    rw [hiff]
    have hperm := List.perm_insertionSort (· ≤ ·) ((d.annotations.filterMap Ann.category_id).dedup)
    constructor
    · rintro ⟨hmem, rfl⟩
      refine ⟨List.mem_dedup.mp (hperm.mem_iff.mp hmem), ?_⟩
      exact ((hperm.filter _).length_eq)
    · rintro ⟨hmem, rfl⟩
      refine ⟨hperm.mem_iff.mpr (List.mem_dedup.mpr hmem), ?_⟩
      exact ((hperm.filter _).length_eq).symm

/-- Input with a declared category list. -/
def catsListDataset : Dataset :=
  { images := [], categories := some [3, 5, 9], annotations := [] }

/-- Input without a declared category list, referencing category ids 9 and 4. -/
def noCatsDataset : Dataset :=
  { images := [imgW]
    categories := none
    annotations := [{ id := some 1, image_id := some 1, category_id := some 9, segmentation := some .other, tag := 0 },
                    { id := some 2, image_id := some 1, category_id := some 4, segmentation := some .other, tag := 0 }] }

theorem C6_category_mapping_witness :
    (category_mapping_fn catsListDataset).1 5 = some 1 ∧
    (category_mapping_fn noCatsDataset).2 = true ∧
    ((category_mapping_fn noCatsDataset).1 9 = some 1 ↔
      (9 ∈ noCatsDataset.annotations.filterMap Ann.category_id ∧
        1 = ((noCatsDataset.annotations.filterMap Ann.category_id).dedup.filter (fun c => c < 9)).length)) :=
  ⟨(C6_category_mapping catsListDataset).1 [3, 5, 9] rfl (by decide) 1 (by decide),
   ((C6_category_mapping noCatsDataset).2 rfl).1,
   ((C6_category_mapping noCatsDataset).2 rfl).2 9 1⟩

end GenLabels

namespace MergeCoco

/-- One entry of an `images` list as seen by merge_COCO_dataset.py: the
fields are read with `.get(..., None)`, so each is optional; `tag` stands
for the rest of the JSON object's payload. -/
structure MImage where
  height : Option ℕ
  width : Option ℕ
  file_name : Option String
  id : Option ℕ
  tag : ℕ
deriving DecidableEq

/-- One entry of an `annotations` list; only `image_id` is inspected by the
merge, `tag` stands for the rest of the record. -/
structure MAnn where
  image_id : Option ℕ
  tag : ℕ
deriving DecidableEq

/-- A whole annotation file: `images`, `annotations`, and all remaining
top-level fields (`extra`), which the merge never touches. -/
structure MData where
  images : List MImage
  annotations : List MAnn
  extra : List (String × ℕ)
deriving DecidableEq

/-- The image fingerprint `(height, width, file_name)` used for
deduplication (merge_COCO_dataset.py lines 28-29). -/
def fingerprint (img : MImage) : Option ℕ × Option ℕ × Option String :=
  (img.height, img.width, img.file_name)

/-- The set of fingerprints of the target's images (lines 25-30). -/
def target_image_fingerprints (t : MData) : List (Option ℕ × Option ℕ × Option String) :=
  t.images.map fingerprint

/-- Source images whose fingerprint is not among the target's (the loop of
lines 37-45, which appends each such image in order). -/
def new_images (s t : MData) : List MImage :=
  s.images.filter (fun img => decide (fingerprint img ∉ target_image_fingerprints t))

/-- The ids collected from the newly added images that carry an `id` field
(lines 43-44). -/
def new_image_ids (s t : MData) : List ℕ :=
  (new_images s t).filterMap MImage.id

/-- The annotations taken from the source (lines 52-61): when some new image
ids were collected, the source annotations whose `image_id` is among them;
otherwise the fallback takes the first `len(new_images)` source
annotations. -/
def new_annotations (s t : MData) : List MAnn :=
  if (new_image_ids s t).isEmpty then
    s.annotations.take (new_images s t).length
  else
    s.annotations.filter (fun a =>
      match a.image_id with
      | some i => decide (i ∈ new_image_ids s t)
      | none => false)

/-- `merge_annotation_files` (merge_COCO_dataset.py lines 4-79) on in-memory
data: extends the target's `images` and `annotations` in place (lines
64-65) and leaves every other top-level field alone. -/
def merge_annotation_files (s t : MData) : MData :=
  { t with
      images := t.images ++ new_images s t
      annotations := t.annotations ++ new_annotations s t }

/-- **C7**: a source image appears among the merged images iff it is a
target image or its (height, width, file_name) fingerprint occurs in no
target image; and when at least one newly added image carries an id, the
merged annotations are exactly the target's followed by those source
annotations whose image_id is the id of a newly added image. -/
theorem C7_merge_membership (s t : MData) :
    (∀ img, img ∈ (merge_annotation_files s t).images ↔
      (img ∈ t.images ∨ (img ∈ s.images ∧
        ∀ timg ∈ t.images, fingerprint timg ≠ fingerprint img))) ∧
    (new_image_ids s t ≠ [] →
      ∀ a, a ∈ (merge_annotation_files s t).annotations ↔
        (a ∈ t.annotations ∨ (a ∈ s.annotations ∧
          ∃ i, a.image_id = some i ∧ ∃ img ∈ new_images s t, img.id = some i))) := by
  constructor
  · intro img
    show img ∈ t.images ++ new_images s t ↔ _
    rw [List.mem_append]
    constructor
    · rintro (h | h)
      · exact Or.inl h
      · rcases List.mem_filter.mp h with ⟨hs, hd⟩
        refine Or.inr ⟨hs, ?_⟩
        intro timg htimg heq
        have : fingerprint img ∈ target_image_fingerprints t :=
          heq ▸ List.mem_map_of_mem fingerprint htimg
        exact absurd this (of_decide_eq_true hd)
    · rintro (h | ⟨hs, hne⟩)
      · exact Or.inl h
      · refine Or.inr (List.mem_filter.mpr ⟨hs, decide_eq_true ?_⟩)
        intro hmem
        rcases List.mem_map.mp hmem with ⟨timg, htimg, heq⟩
        exact hne timg htimg heq
  · intro hne a
    have hnotempty : (new_image_ids s t).isEmpty = false := by
      cases hh : new_image_ids s t with
      | nil => exact absurd hh hne
      | cons x xs => rfl
    show a ∈ t.annotations ++ new_annotations s t ↔ _
    rw [List.mem_append]
    unfold new_annotations
    rw [hnotempty]
    simp only [Bool.false_eq_true, if_false]
    constructor
    · rintro (h | h)
      · exact Or.inl h
      · rcases List.mem_filter.mp h with ⟨hs, hd⟩
        refine Or.inr ⟨hs, ?_⟩
        cases hia : a.image_id with
        | none => rw [hia] at hd; exact absurd hd (by simp)
        | some i =>
            rw [hia] at hd
            refine ⟨i, rfl, ?_⟩
            have hi : i ∈ new_image_ids s t := of_decide_eq_true hd
            rcases List.mem_filterMap.mp hi with ⟨img, himg, hid⟩
            exact ⟨img, himg, hid⟩
    · rintro (h | ⟨hs, i, hia, img, himg, hid⟩)
      · exact Or.inl h
      · refine Or.inr (List.mem_filter.mpr ⟨hs, ?_⟩)
        rw [hia]
        exact decide_eq_true (List.mem_filterMap.mpr ⟨img, himg, hid⟩)

/-- **C10**: the merge is append-only with respect to the target: the merged
`images` and `annotations` lists are the target's lists, unchanged and in
their original order, followed by the newly added items, and every other
top-level field of the target is unchanged. -/
theorem C10_merge_append_only (s t : MData) :
    ∃ addedImages addedAnns,
      (merge_annotation_files s t).images = t.images ++ addedImages ∧
      (merge_annotation_files s t).annotations = t.annotations ++ addedAnns ∧
      (merge_annotation_files s t).extra = t.extra :=
  ⟨new_images s t, new_annotations s t, rfl, rfl, rfl⟩

/-- Image A of the spec's merge scenario. -/
def imgMergeA : MImage :=
  { height := some 5, width := some 5, file_name := some "a", id := some 1, tag := 0 }

/-- Image B of the spec's merge scenario, present in both files. -/
def imgMergeB : MImage :=
  { height := some 5, width := some 5, file_name := some "b", id := some 2, tag := 0 }

/-- Image C of the spec's merge scenario, present only in the source. -/
def imgMergeC : MImage :=
  { height := some 5, width := some 5, file_name := some "c", id := some 3, tag := 0 }

/-- Target file with images [A, B]. -/
def tgtMergeData : MData :=
  { images := [imgMergeA, imgMergeB]
    annotations := [{ image_id := some 1, tag := 0 }, { image_id := some 2, tag := 1 }]
    extra := [("info", 0)] }

/-- Source file with images [B, C]. -/
def srcMergeData : MData :=
  { images := [imgMergeB, imgMergeC]
    annotations := [{ image_id := some 2, tag := 10 }, { image_id := some 3, tag := 11 }]
    extra := [("info", 7)] }

theorem C7_merge_membership_witness :
    (merge_annotation_files srcMergeData tgtMergeData).images =
        [imgMergeA, imgMergeB, imgMergeC] ∧
    (merge_annotation_files srcMergeData tgtMergeData).annotations =
        [{ image_id := some 1, tag := 0 }, { image_id := some 2, tag := 1 },
         { image_id := some 3, tag := 11 }] ∧
    (({ image_id := some 3, tag := 11 } : MAnn) ∈
        (merge_annotation_files srcMergeData tgtMergeData).annotations ↔
      (({ image_id := some 3, tag := 11 } : MAnn) ∈ tgtMergeData.annotations ∨
        (({ image_id := some 3, tag := 11 } : MAnn) ∈ srcMergeData.annotations ∧
          ∃ i, (({ image_id := some 3, tag := 11 } : MAnn)).image_id = some i ∧
            ∃ img ∈ new_images srcMergeData tgtMergeData, img.id = some i))) :=
  ⟨by decide, by decide,
   (C7_merge_membership srcMergeData tgtMergeData).2 (by decide)
     { image_id := some 3, tag := 11 }⟩

end MergeCoco

namespace SplitCoco

/-- One annotation record as used by split_COCO_dataset.py: `category_id`
(line 40) and `image_id` (line 53) are read unconditionally; `tag` stands
for the rest of the record. -/
structure SAnn where
  category_id : ℕ
  image_id : ℕ
  tag : ℕ
deriving DecidableEq

/-- One image record; `id` and the payload.  `file_name` is only used for
copying files, which is outside the model. -/
structure SImage where
  id : ℕ
  file_name : String
  tag : ℕ
deriving DecidableEq

/-- The dataset file: `images`, `annotations`, `categories` (line 13-15). -/
structure SData where
  images : List SImage
  annotations : List SAnn
  categories : List ℕ
deriving DecidableEq

/-- The dict `image_id_to_info` (line 34): later duplicates overwrite, so
lookup finds the last record with the given id. -/
def image_id_to_info (images : List SImage) (i : ℕ) : Option SImage :=
  images.reverse.find? (fun im => im.id == i)

/-- Distinct values in first-occurrence order: the key order of the
`defaultdict` built at lines 38-40, and the contents of the image-id sets of
lines 53-54 (set iteration order is not observable in the properties proved
here, only multiplicities are). -/
def dedupFirst : List ℕ → List ℕ
  | [] => []
  | a :: as => a :: (dedupFirst as).filter (fun b => !(b == a))

/-- The annotations of one category, in original order: the group the
`defaultdict` accumulates at lines 38-40. -/
def groupOf (anns : List SAnn) (c : ℕ) : List SAnn :=
  anns.filter (fun a => a.category_id == c)

/-- `split_idx = int(len(anns) * train_ratio)` (line 45), over exact
rationals (Python truncation towards zero equals floor for the non-negative
values arising here). -/
def split_idx (n : ℕ) (r : ℚ) : ℕ := (Int.floor ((n : ℚ) * r)).toNat

/-- The train split of the annotations (lines 43-49): for each category key
in first-encounter order, the first `split_idx` elements of that category's
shuffled group.  `random.shuffle` is modelled by the parameter `sh`. -/
def train_annotations (sh : List SAnn → List SAnn) (r : ℚ) (anns : List SAnn) : List SAnn :=
  (dedupFirst (anns.map SAnn.category_id)).flatMap (fun c =>
    (sh (groupOf anns c)).take (split_idx (sh (groupOf anns c)).length r))

/-- The val split of the annotations (lines 43-50): the remaining elements
of each shuffled group. -/
def val_annotations (sh : List SAnn → List SAnn) (r : ℚ) (anns : List SAnn) : List SAnn :=
  (dedupFirst (anns.map SAnn.category_id)).flatMap (fun c =>
    (sh (groupOf anns c)).drop (split_idx (sh (groupOf anns c)).length r))

/-- The image-collection loops (lines 56-62): one lookup of
`image_id_to_info` per distinct referenced image id; a missing id raises
KeyError, modelled by `none`. -/
def lookup_all (images : List SImage) : List ℕ → Option (List SImage)
  | [] => some []
  | i :: is =>
      match image_id_to_info images i, lookup_all images is with
      | some im, some rest => some (im :: rest)
      | _, _ => none

/-- `split_coco_dataset_by_category` (split_COCO_dataset.py lines 7-68) on
in-memory data; file copying and JSON writing are outside the model. -/
def split_coco_dataset_by_category (sh : List SAnn → List SAnn) (d : SData) (r : ℚ) :
    Option (SData × SData) :=
  match lookup_all d.images (dedupFirst ((train_annotations sh r d.annotations).map SAnn.image_id)),
        lookup_all d.images (dedupFirst ((val_annotations sh r d.annotations).map SAnn.image_id)) with
  | some tr_imgs, some va_imgs =>
      some ({ images := tr_imgs, annotations := train_annotations sh r d.annotations, categories := d.categories },
            { images := va_imgs, annotations := val_annotations sh r d.annotations, categories := d.categories })
  | _, _ => none

theorem mem_dedupFirst (x : ℕ) : ∀ l : List ℕ, x ∈ dedupFirst l ↔ x ∈ l
  | [] => Iff.rfl
  | a :: as => by
      by_cases hx : x = a
      · subst hx
        simp [dedupFirst]
      · have ih := mem_dedupFirst x as
        simp only [dedupFirst, List.mem_cons, List.mem_filter]
        constructor
        · rintro (rfl | ⟨hmem, -⟩)
          · exact Or.inl rfl
          · exact Or.inr (ih.mp hmem)
        · rintro (rfl | hmem)
          · exact Or.inl rfl
          · exact Or.inr ⟨ih.mpr hmem, by simp [hx]⟩

theorem nodup_dedupFirst : ∀ l : List ℕ, (dedupFirst l).Nodup
  | [] => List.nodup_nil
  | a :: as => by
      refine List.nodup_cons.mpr ⟨?_, ?_⟩
      · intro hmem
        have := (List.mem_filter.mp hmem).2
        simp at this
      · exact List.Nodup.filter _ (nodup_dedupFirst as)

theorem groupOf_cat (anns : List SAnn) (c : ℕ) : ∀ a ∈ groupOf anns c, a.category_id = c := by
  intro a ha
  have := (List.mem_filter.mp ha).2
  simpa using this

theorem mem_keys_iff (anns : List SAnn) (c : ℕ) :
    c ∈ dedupFirst (anns.map SAnn.category_id) ↔ groupOf anns c ≠ [] := by
  rw [mem_dedupFirst]
  constructor
  · intro h hgroup
    rcases List.mem_map.mp h with ⟨a, ha, hc⟩
    have hmem : a ∈ groupOf anns c := List.mem_filter.mpr ⟨ha, by simp [hc]⟩
    rw [hgroup] at hmem
    exact absurd hmem (List.not_mem_nil a)
  · intro h
    cases hg : groupOf anns c with
    | nil => exact absurd hg h
    | cons a rest =>
        have hmem : a ∈ groupOf anns c := hg ▸ List.mem_cons_self a rest
        rcases List.mem_filter.mp hmem with ⟨ha, hc⟩
        exact List.mem_map.mpr ⟨a, ha, by simpa using hc⟩

theorem flatMap_single (f : ℕ → List SAnn) (c : ℕ) :
    ∀ keys : List ℕ, keys.Nodup → (∀ c2, c2 ≠ c → f c2 = []) →
      keys.flatMap f = if c ∈ keys then f c else []
  | [], _, _ => by simp
  | a :: keys, hnd, hf => by
      rw [List.flatMap_cons, flatMap_single f c keys (List.nodup_cons.mp hnd).2 hf]
      by_cases hac : a = c
      · subst hac
        have hnotin : a ∉ keys := (List.nodup_cons.mp hnd).1
        rw [if_neg hnotin, if_pos (List.mem_cons_self a keys), List.append_nil]
      · rw [hf a hac, List.nil_append]
        by_cases hck : c ∈ keys
        · rw [if_pos hck, if_pos (List.mem_cons_of_mem a hck)]
        · rw [if_neg hck, if_neg (fun hh => by
            rcases List.mem_cons.mp hh with rfl | hh
            · exact hac rfl
            · exact hck hh)]

theorem split_idx_le (n : ℕ) (r : ℚ) (hr1 : r ≤ 1) : split_idx n r ≤ n := by
  unfold split_idx
  rw [Int.toNat_le]
  have hmul : (n : ℚ) * r ≤ (n : ℚ) := by
    calc (n : ℚ) * r ≤ (n : ℚ) * 1 := mul_le_mul_of_nonneg_left hr1 (by positivity)
      _ = (n : ℚ) := mul_one _
  exact (Int.floor_le_floor hmul).trans (le_of_eq (Int.floor_natCast n))

theorem split_idx_zero (r : ℚ) : split_idx 0 r = 0 := by
  simp [split_idx]

theorem split_filter_eq (sh : List SAnn → List SAnn) (hsh : ∀ l, (sh l).Perm l)
    (anns : List SAnn) (c : ℕ) (part : List SAnn → List SAnn)
    (hpart : ∀ l a, a ∈ part l → a ∈ l) :
    ((dedupFirst (anns.map SAnn.category_id)).flatMap
        (fun c2 => part (sh (groupOf anns c2)))).filter (fun a => a.category_id == c) =
      if c ∈ dedupFirst (anns.map SAnn.category_id) then part (sh (groupOf anns c)) else [] := by
  rw [List.filter_flatMap]
  rw [flatMap_single _ c _ (nodup_dedupFirst _) ?hzero]
  case hzero =>
    intro c2 hc2
    rw [List.filter_eq_nil_iff]
    intro a ha hb
    have hmem : a ∈ groupOf anns c2 := ((hsh (groupOf anns c2)).mem_iff).mp (hpart _ a ha)
    have hcat : a.category_id = c2 := groupOf_cat anns c2 a hmem
    have : a.category_id = c := by simpa using hb
    exact hc2 (hcat ▸ this)
  split
  · apply List.filter_eq_self.mpr
    intro a ha
    have hmem : a ∈ groupOf anns c := ((hsh (groupOf anns c)).mem_iff).mp (hpart _ a ha)
    simp [groupOf_cat anns c a hmem]
  · rfl

theorem image_lookup_isSome (images : List SImage) (i : ℕ)
    (h : ∃ im ∈ images, im.id = i) :
    ∃ im, image_id_to_info images i = some im ∧ im.id = i := by
  rcases h with ⟨im, him, hid⟩
  have hmem : im ∈ images.reverse := List.mem_reverse.mpr him
  have hex : ∃ im2, images.reverse.find? (fun x => x.id == i) = some im2 := by
    cases hf : images.reverse.find? (fun x => x.id == i) with
    | some im2 => exact ⟨im2, rfl⟩
    | none =>
        have := List.find?_eq_none.mp hf im hmem
        simp [hid] at this
  rcases hex with ⟨im2, hf⟩
  refine ⟨im2, hf, ?_⟩
  have := List.find?_some hf
  simpa using this

theorem lookup_all_spec (images : List SImage) :
    ∀ ids : List ℕ, (∀ i ∈ ids, ∃ im ∈ images, im.id = i) →
      ∃ imgs, lookup_all images ids = some imgs ∧
        ∀ j, (imgs.filter (fun im => im.id == j)).length =
          (ids.filter (fun i => i == j)).length
  | [], _ => ⟨[], rfl, fun _ => rfl⟩
  | i :: ids, h => by
      obtain ⟨im, hfind, hid⟩ := image_lookup_isSome images i (h i (List.mem_cons_self i ids))
      obtain ⟨imgs, hrest, hcount⟩ := lookup_all_spec images ids
        (fun i2 hi2 => h i2 (List.mem_cons_of_mem i hi2))
      refine ⟨im :: imgs, ?_, ?_⟩
      · simp [lookup_all, hfind, hrest]
      · intro j
        simp only [List.filter_cons, hid]
        cases hb : (i == j) with
        | false => simpa [hb] using hcount j
        | true => simp [hb, hcount j]

theorem filter_beq_length_one (i : ℕ) :
    ∀ l : List ℕ, l.Nodup → i ∈ l → (l.filter (fun x => x == i)).length = 1
  | [], _, hmem => absurd hmem (List.not_mem_nil i)
  | a :: as, hnd, hmem => by
      rw [List.filter_cons]
      by_cases hai : a = i
      · subst hai
        rw [if_pos (by simp)]
        have hnotin : a ∉ as := (List.nodup_cons.mp hnd).1
        have hnil : as.filter (fun x => x == a) = [] := by
          rw [List.filter_eq_nil_iff]
          intro b hb hbeq
          have hba : b = a := by simpa using hbeq
          exact hnotin (hba ▸ hb)
        rw [hnil]
        rfl
      · rw [if_neg (by simpa using hai)]
        have hmem2 : i ∈ as := by
          rcases List.mem_cons.mp hmem with rfl | h
          · exact absurd rfl hai
          · exact h
        exact filter_beq_length_one i as (List.nodup_cons.mp hnd).2 hmem2

/-- **C8**: for every split with train ratio r in [0, 1], each category's
annotations are partitioned with floor(n·r) of its n annotations in the
train set and the remaining n − floor(n·r) in the val set (whatever
permutation the shuffle produces), and every image referenced by a kept
annotation appears exactly once in the corresponding output's image list. -/
theorem C8_split_by_category (sh : List SAnn → List SAnn)
    (hsh : ∀ l, (sh l).Perm l) (d : SData) (r : ℚ) (hr1 : r ≤ 1)
    (himg : ∀ a ∈ d.annotations, ∃ im ∈ d.images, im.id = a.image_id) :
    ∃ tr va, split_coco_dataset_by_category sh d r = some (tr, va) ∧
      (∀ c, (tr.annotations.filter (fun a => a.category_id == c)).length =
          split_idx (groupOf d.annotations c).length r) ∧
      (∀ c, (va.annotations.filter (fun a => a.category_id == c)).length =
          (groupOf d.annotations c).length - split_idx (groupOf d.annotations c).length r) ∧
      (∀ c, ((tr.annotations.filter (fun a => a.category_id == c)) ++
          (va.annotations.filter (fun a => a.category_id == c))).Perm (groupOf d.annotations c)) ∧
      (∀ i, i ∈ tr.annotations.map SAnn.image_id →
        (tr.images.filter (fun im => im.id == i)).length = 1) ∧
      (∀ i, i ∈ va.annotations.map SAnn.image_id →
        (va.images.filter (fun im => im.id == i)).length = 1) := by
  have htr_sub : ∀ a ∈ train_annotations sh r d.annotations, a ∈ d.annotations := by
    intro a ha
    rcases List.mem_flatMap.mp ha with ⟨c, -, hin⟩
    have h1 : a ∈ sh (groupOf d.annotations c) := List.mem_of_mem_take hin
    have h2 : a ∈ groupOf d.annotations c := (hsh _).mem_iff.mp h1
    exact (List.mem_filter.mp h2).1
  have hva_sub : ∀ a ∈ val_annotations sh r d.annotations, a ∈ d.annotations := by
    intro a ha
    rcases List.mem_flatMap.mp ha with ⟨c, -, hin⟩
    have h1 : a ∈ sh (groupOf d.annotations c) := List.mem_of_mem_drop hin
    have h2 : a ∈ groupOf d.annotations c := (hsh _).mem_iff.mp h1
    exact (List.mem_filter.mp h2).1
  have htrids : ∀ i ∈ dedupFirst ((train_annotations sh r d.annotations).map SAnn.image_id),
      ∃ im ∈ d.images, im.id = i := by
    intro i hi
    rw [mem_dedupFirst] at hi
    rcases List.mem_map.mp hi with ⟨a, ha, rfl⟩
    exact himg a (htr_sub a ha)
  have hvaids : ∀ i ∈ dedupFirst ((val_annotations sh r d.annotations).map SAnn.image_id),
      ∃ im ∈ d.images, im.id = i := by
    intro i hi
    rw [mem_dedupFirst] at hi
    rcases List.mem_map.mp hi with ⟨a, ha, rfl⟩
    exact himg a (hva_sub a ha)
  obtain ⟨trImgs, htrL, htrCount⟩ := lookup_all_spec d.images _ htrids
  obtain ⟨vaImgs, hvaL, hvaCount⟩ := lookup_all_spec d.images _ hvaids
  have hfeTake : ∀ c, (train_annotations sh r d.annotations).filter
        (fun a => a.category_id == c) =
      if c ∈ dedupFirst (d.annotations.map SAnn.category_id) then
        (sh (groupOf d.annotations c)).take (split_idx (sh (groupOf d.annotations c)).length r)
      else [] :=
    fun c => split_filter_eq sh hsh d.annotations c
      (fun l => l.take (split_idx l.length r)) (fun _ a ha => List.mem_of_mem_take ha)
  have hfeDrop : ∀ c, (val_annotations sh r d.annotations).filter
        (fun a => a.category_id == c) =
      if c ∈ dedupFirst (d.annotations.map SAnn.category_id) then
        (sh (groupOf d.annotations c)).drop (split_idx (sh (groupOf d.annotations c)).length r)
      else [] :=
    fun c => split_filter_eq sh hsh d.annotations c
      (fun l => l.drop (split_idx l.length r)) (fun _ a ha => List.mem_of_mem_drop ha)
  have hglen : ∀ c, (sh (groupOf d.annotations c)).length = (groupOf d.annotations c).length :=
    fun c => (hsh _).length_eq
  have hempty : ∀ c, c ∉ dedupFirst (d.annotations.map SAnn.category_id) →
      groupOf d.annotations c = [] := by
    intro c hck
    by_contra hne
    exact hck ((mem_keys_iff _ _).mpr hne)
  refine ⟨{ images := trImgs, annotations := train_annotations sh r d.annotations, categories := d.categories },
          { images := vaImgs, annotations := val_annotations sh r d.annotations, categories := d.categories },
          ?_, ?_, ?_, ?_, ?_, ?_⟩
  · show split_coco_dataset_by_category sh d r = _
    unfold split_coco_dataset_by_category
    rw [htrL, hvaL]
  · intro c
    show ((train_annotations sh r d.annotations).filter (fun a => a.category_id == c)).length = _
    rw [hfeTake c]
    by_cases hck : c ∈ dedupFirst (d.annotations.map SAnn.category_id)
    · rw [if_pos hck, List.length_take, hglen c]
      exact min_eq_left (split_idx_le _ r hr1)
    · rw [if_neg hck, hempty c hck]
      simp [split_idx_zero]
  · intro c
    show ((val_annotations sh r d.annotations).filter (fun a => a.category_id == c)).length = _
    rw [hfeDrop c]
    by_cases hck : c ∈ dedupFirst (d.annotations.map SAnn.category_id)
    · rw [if_pos hck, List.length_drop, hglen c]
    · rw [if_neg hck, hempty c hck]
      simp [split_idx_zero]
  · intro c
    show (((train_annotations sh r d.annotations).filter (fun a => a.category_id == c)) ++
        ((val_annotations sh r d.annotations).filter (fun a => a.category_id == c))).Perm _
    rw [hfeTake c, hfeDrop c]
    by_cases hck : c ∈ dedupFirst (d.annotations.map SAnn.category_id)
    · rw [if_pos hck, if_pos hck, List.take_append_drop]
      exact hsh _
    · rw [if_neg hck, if_neg hck, hempty c hck]
      exact List.Perm.refl _
  · intro i hi
    show (trImgs.filter (fun im => im.id == i)).length = 1
    rw [htrCount i]
    exact filter_beq_length_one i _ (nodup_dedupFirst _) ((mem_dedupFirst i _).mpr hi)
  · intro i hi
    show (vaImgs.filter (fun im => im.id == i)).length = 1
    rw [hvaCount i]
    exact filter_beq_length_one i _ (nodup_dedupFirst _) ((mem_dedupFirst i _).mpr hi)

/-- The spec scenario's annotations: two categories with ten annotations
each, each annotation on its own image. -/
def splitAnns : List SAnn :=
  (List.range 10).map (fun n => { category_id := 1, image_id := n + 1, tag := n }) ++
  (List.range 10).map (fun n => { category_id := 2, image_id := n + 11, tag := n + 10 })

/-- Twenty images with ids 1..20. -/
def splitImages : List SImage :=
  (List.range 20).map (fun n => { id := n + 1, file_name := "img", tag := n })

/-- The spec scenario's dataset. -/
def splitScenario : SData :=
  { images := splitImages, annotations := splitAnns, categories := [1, 2] }

theorem C8_split_by_category_witness :
    ∃ tr va, split_coco_dataset_by_category id splitScenario (4 / 5) = some (tr, va) ∧
      (∀ c, (tr.annotations.filter (fun a => a.category_id == c)).length =
          split_idx (groupOf splitScenario.annotations c).length (4 / 5)) ∧
      (∀ c, (va.annotations.filter (fun a => a.category_id == c)).length =
          (groupOf splitScenario.annotations c).length -
            split_idx (groupOf splitScenario.annotations c).length (4 / 5)) ∧
      (∀ c, ((tr.annotations.filter (fun a => a.category_id == c)) ++
          (va.annotations.filter (fun a => a.category_id == c))).Perm
            (groupOf splitScenario.annotations c)) ∧
      (∀ i, i ∈ tr.annotations.map SAnn.image_id →
        (tr.images.filter (fun im => im.id == i)).length = 1) ∧
      (∀ i, i ∈ va.annotations.map SAnn.image_id →
        (va.images.filter (fun im => im.id == i)).length = 1) :=
  C8_split_by_category id (fun l => List.Perm.refl l) splitScenario (4 / 5)
    (by norm_num) (by decide)

end SplitCoco
